import Mathlib

/-!
Shallow embedding of the GraphQL note-taking application (Apollo Server
resolvers over a Prisma store, plus Apollo Client data hooks).

Server side (`src/unnamed/part_005`, `src/backend/src/schema.ts`): the
resolvers are translated directly; the Prisma storage collaborator is not
part of the repository sources, so its CRUD interface is modelled from the
specification (definitions marked `Modelled from the spec:`).  Timestamps
are modelled as natural numbers, ids as naturals assigned by a store
counter.

Client side (`src/unnamed/part_000`): the `useNotes` variable
normalization and the `useCreateNote` cache-update rule are embedded over
an explicit cache of per-search list entries.
-/

/-- A stored Note record, the sole entity of the data model
(`type Note` in `src/backend/src/schema.ts`): `id`, `title`, `content`,
`createdAt`, `updatedAt`. -/
structure Note where
  id : Nat
  title : String
  content : String
  createdAt : Nat
  updatedAt : Nat
deriving DecidableEq, Repr

/-- Boolean test that the first character list occurs at the start of the
second (helper for the substring check). -/
def leadsWith : List Char → List Char → Bool
  | [], _ => true
  | _ :: _, [] => false
  | p :: ps, c :: cs => p == c && leadsWith ps cs

/-- Boolean test that `p` occurs as a contiguous substring of the second
list. -/
def occursIn (p : List Char) : List Char → Bool
  | [] => p.isEmpty
  | c :: rest => leadsWith p (c :: rest) || occursIn p rest

/-- ASCII lowering of one character (code points 65–90 shift to 97–122),
the case folding applied on both sides of the insensitive `contains`
filter. -/
def charLower (c : Char) : Char :=
  if 65 ≤ c.toNat ∧ c.toNat ≤ 90 then Char.ofNat (c.toNat + 32) else c

/-- Case-insensitive substring containment, the embedding of Prisma's
`contains` filter with `mode: 'insensitive'` used by the `notes`
resolver: lower both strings and test contiguous-substring occurrence. -/
def containsCI (hay pat : String) : Bool :=
  occursIn (pat.data.map charLower) (hay.data.map charLower)

deriving instance DecidableEq for Except

/-- Modelled from the spec: the state of the external storage collaborator
("persists Note records") — the list of stored records plus the counter
from which the server assigns fresh opaque ids. -/
structure Store where
  notes : List Note
  nextId : Nat
deriving DecidableEq, Repr

/-- Modelled from the spec: storage `findMany(filter?) -> list` with the
ordering the resolver requests (`orderBy: { createdAt: 'desc' }`): keep
the records passing the filter, sorted most-recent-first (stable). -/
def prismaFindMany (wpred : Note → Bool) (s : Store) : List Note :=
  (s.notes.filter wpred).insertionSort (fun a b => b.createdAt ≤ a.createdAt)

/-- Modelled from the spec: storage `findUnique(id) -> record or absent`. -/
def prismaFindUnique (id : Nat) (s : Store) : Option Note :=
  s.notes.find? (fun n => n.id == id)

/-- Modelled from the spec: storage `create(fields) -> record` — the server
assigns `id`, `createdAt`, `updatedAt` (equal at creation, both the
current time `now`). -/
def prismaCreate (title content : String) (now : Nat) (s : Store) : Note × Store :=
  let n : Note :=
    { id := s.nextId, title := title, content := content
      createdAt := now, updatedAt := now }
  (n, { notes := s.notes ++ [n], nextId := s.nextId + 1 })

/-- Partial update payload handed to the storage collaborator: each field
is either supplied or absent (the shape of Prisma's `data` object after
the resolver's conditional spreads). -/
structure UpdateData where
  title : Option String
  content : Option String
deriving DecidableEq, Repr

/-- Modelled from the spec: the effect of storage `update` on one record —
supplied fields are overwritten, absent fields kept, and `updatedAt` is
refreshed to the current time on any successful update. -/
def applyUpdate (d : UpdateData) (now : Nat) (n : Note) : Note :=
  { n with
    title := d.title.getD n.title
    content := d.content.getD n.content
    updatedAt := now }

/-- Modelled from the spec: storage `update(id, partialFields) -> record`,
failing with a not-found error when no record has the id. -/
def prismaUpdate (id : Nat) (d : UpdateData) (now : Nat) (s : Store) :
    Except String (Note × Store) :=
  match s.notes.find? (fun n => n.id == id) with
  | none => .error "NotFoundError"
  | some n =>
      .ok (applyUpdate d now n,
        { s with
          notes := s.notes.map (fun m => if m.id == id then applyUpdate d now m else m) })

/-- Modelled from the spec: storage `delete(id) -> void, fails if absent`. -/
def prismaDelete (id : Nat) (s : Store) : Except String Store :=
  if s.notes.any (fun n => n.id == id) then
    .ok { s with notes := s.notes.filter (fun n => !(n.id == id)) }
  else
    .error "NotFoundError"

/-- Combined filter of the `notes` resolver's `where` clause when a truthy
search string is present: `OR` of case-insensitive `contains` on `title`
and on `content` (`src/unnamed/part_005`, `resolvers.Query.notes`). -/
def noteMatches (q : String) (n : Note) : Bool :=
  containsCI n.title q || containsCI n.content q

/-- Embedding of `resolvers.Query.notes` (`src/unnamed/part_005`): the
`where` clause is the OR filter exactly when `search` is truthy
(present and non-empty, the JS conditional `search ? ... : \x7b\x7d`),
otherwise empty; ordering is `createdAt` descending. -/
def notesResolver (search : Option String) (s : Store) : List Note :=
  match search with
  | some q => if q == "" then prismaFindMany (fun _ => true) s
              else prismaFindMany (noteMatches q) s
  | none => prismaFindMany (fun _ => true) s

/-- Embedding of `resolvers.Query.note` (`src/unnamed/part_005`): a plain
`findUnique`, returning the record or an explicit absent result. -/
def noteResolver (id : Nat) (s : Store) : Option Note :=
  prismaFindUnique id s

/-- Embedding of `resolvers.Mutation.createNote` (`src/unnamed/part_005`):
a plain storage create with the two required arguments. -/
def createNoteResolver (title content : String) (now : Nat) (s : Store) :
    Note × Store :=
  prismaCreate title content now s

/-- Truthy-guarded optional field: the JS spread `...(x && \x7b x \x7d)`
includes the field exactly when `x` is a present, non-empty string. -/
def truthyField : Option String → Option String
  | none => none
  | some t => if t == "" then none else some t

/-- Embedding of `resolvers.Mutation.updateNote` (`src/unnamed/part_005`):
`data` holds `title`/`content` exactly when truthy (the conditional
spreads); a failed update leaves the store untouched and surfaces the
error. -/
def updateNoteResolver (id : Nat) (title content : Option String) (now : Nat)
    (s : Store) : Except String Note × Store :=
  match prismaUpdate id { title := truthyField title, content := truthyField content } now s with
  | .error e => (.error e, s)
  | .ok (n, s2) => (.ok n, s2)

/-- Embedding of `resolvers.Mutation.deleteNote` (`src/unnamed/part_005`):
storage delete, then `true` on success; a failed delete leaves the store
untouched and surfaces the error. -/
def deleteNoteResolver (id : Nat) (s : Store) : Except String Bool × Store :=
  match prismaDelete id s with
  | .error e => (.error e, s)
  | .ok s2 => (.ok true, s2)

/-- Embedding of the variables built by `useNotes`
(`src/unnamed/part_000`): `\x7b search: search || undefined \x7d` maps an
absent or empty-string search to `undefined` and keeps any other string. -/
def useNotesVariables : Option String → Option String
  | none => none
  | some s => if s == "" then none else some s

/-- One cached result of the `notes` field in the Apollo client cache:
keyed by the search argument it was fetched with, holding refs (ids) of
the notes in its list. -/
structure CacheEntry where
  search : Option String
  noteIds : List Nat
deriving DecidableEq, Repr

/-- Embedding of the `useCreateNote` cache-update rule
(`src/unnamed/part_000`): `cache.modify` runs the `notes` field modifier
on every cached occurrence of the field, across all argument variants,
and the modifier returns `[newNoteRef, ...existingNotes]` — so the new
note's ref is prepended to every cached list entry unconditionally. -/
def useCreateNoteCacheUpdate (newNote : Note) (cache : List CacheEntry) :
    List CacheEntry :=
  cache.map (fun e => { e with noteIds := newNote.id :: e.noteIds })

/-- Well-formedness of a store: ids are pairwise distinct, every id is
below the fresh-id counter, and every record satisfies
`createdAt ≤ updatedAt`. -/
def StoreWF (s : Store) : Prop :=
  (s.notes.map Note.id).Nodup ∧
  ∀ n ∈ s.notes, n.id < s.nextId ∧ n.createdAt ≤ n.updatedAt

/-- States reachable from the empty store by the three mutations, each
executed at a time `now` no earlier than any timestamp already recorded
(monotone wall clock). -/
inductive Reach : Store → Prop
  | init : Reach { notes := [], nextId := 0 }
  | create (s : Store) (t c : String) (now : Nat) :
      Reach s → (∀ n ∈ s.notes, n.updatedAt ≤ now) →
      Reach (createNoteResolver t c now s).2
  | update (s : Store) (i : Nat) (t c : Option String) (now : Nat) :
      Reach s → (∀ n ∈ s.notes, n.updatedAt ≤ now) →
      Reach (updateNoteResolver i t c now s).2
  | delete (s : Store) (i : Nat) :
      Reach s → Reach (deleteNoteResolver i s).2

/-- Descending-by-`createdAt` ordering of a note list. -/
def SortedByCreatedAtDesc (l : List Note) : Prop :=
  l.Sorted (fun a b => b.createdAt ≤ a.createdAt)

instance : IsTotal Note (fun a b => b.createdAt ≤ a.createdAt) :=
  ⟨fun a b => Nat.le_total b.createdAt a.createdAt⟩

instance : IsTrans Note (fun a b => b.createdAt ≤ a.createdAt) :=
  ⟨fun _ _ _ hab hbc => Nat.le_trans hbc hab⟩

/-- Membership in a `findMany` result is membership in the store together
with passing the filter. -/
lemma mem_prismaFindMany {p : Note → Bool} {s : Store} {n : Note} :
    n ∈ prismaFindMany p s ↔ n ∈ s.notes ∧ p n = true := by
  unfold prismaFindMany
  rw [(List.perm_insertionSort _ _).mem_iff, List.mem_filter]

/-- Every `findMany` result is sorted by `createdAt` descending. -/
lemma sorted_prismaFindMany (p : Note → Bool) (s : Store) :
    SortedByCreatedAtDesc (prismaFindMany p s) := by
  unfold prismaFindMany SortedByCreatedAtDesc
  exact List.sorted_insertionSort _ _

/-- Every note returned by the `notes` resolver is stored. -/
lemma mem_of_notesResolver {q : Option String} {s : Store} {n : Note}
    (h : n ∈ notesResolver q s) : n ∈ s.notes := by
  rcases q with _ | q
  · exact (mem_prismaFindMany.mp h).1
  · simp only [notesResolver] at h
    by_cases hq : (q == "") = true
    · rw [if_pos hq] at h
      exact (mem_prismaFindMany.mp h).1
    · rw [if_neg hq] at h
      exact (mem_prismaFindMany.mp h).1

/-- A two-note demonstration store used to instantiate the hypotheses of
the contract theorems. -/
def demoStore : Store :=
  { notes := [⟨0, "Alpha", "graphql notes", 5, 5⟩, ⟨1, "Beta", "other", 9, 9⟩]
    nextId := 2 }

/-- C1: for every store and non-empty search string `q`, `notes(search=q)`
returns exactly the stored notes whose title or content contains `q`
case-insensitively, ordered by `createdAt` descending; with an absent or
empty-string search it returns all stored notes in the same descending
order. -/
theorem notes_query_search_contract (s : Store) (q : String) (hq : q ≠ "") :
    ((notesResolver (some q) s).Perm (s.notes.filter (noteMatches q)) ∧
      (∀ n, n ∈ notesResolver (some q) s ↔
        n ∈ s.notes ∧ (containsCI n.title q = true ∨ containsCI n.content q = true)) ∧
      SortedByCreatedAtDesc (notesResolver (some q) s)) ∧
    ((notesResolver none s).Perm s.notes ∧
      (∀ n, n ∈ notesResolver none s ↔ n ∈ s.notes) ∧
      SortedByCreatedAtDesc (notesResolver none s)) ∧
    notesResolver (some "") s = notesResolver none s := by
  have hq2 : (q == "") = false := beq_eq_false_iff_ne.mpr hq
  refine ⟨⟨?_, ?_, ?_⟩, ⟨?_, ?_, ?_⟩, ?_⟩
  · simp only [notesResolver, hq2, Bool.false_eq_true, if_false]
    exact List.perm_insertionSort _ _
  · intro n
    simp only [notesResolver, hq2, Bool.false_eq_true, if_false]
    rw [mem_prismaFindMany]
    simp [noteMatches]
  · simp only [notesResolver, hq2, Bool.false_eq_true, if_false]
    exact sorted_prismaFindMany _ _
  · have hperm : (notesResolver none s).Perm (s.notes.filter (fun _ => true)) :=
      List.perm_insertionSort _ _
    simpa using hperm
  · intro n
    simp only [notesResolver]
    rw [mem_prismaFindMany]
    simp
  · exact sorted_prismaFindMany _ _
  · rfl

/-- Witness for the C1 contract at the demonstration store with the
concrete search string "b". -/
theorem notes_query_search_contract_witness :
    ("b" : String) ≠ "" ∧
    SortedByCreatedAtDesc (notesResolver (some "b") demoStore) ∧
    notesResolver (some "") demoStore = notesResolver none demoStore :=
  ⟨by decide, (notes_query_search_contract demoStore "b" (by decide)).1.2.2,
   (notes_query_search_contract demoStore "b" (by decide)).2.2⟩

/-- C2: an explicit empty-string `title` argument to `updateNote` is
indistinguishable from an absent one (and likewise for `content`), so in
particular `updateNote(i, title="")` leaves every stored title
unchanged. -/
theorem updateNote_empty_string_ignored (i : Nat) (t c : Option String)
    (now : Nat) (s : Store) :
    updateNoteResolver i (some "") c now s = updateNoteResolver i none c now s ∧
    updateNoteResolver i t (some "") now s = updateNoteResolver i t none now s ∧
    ((updateNoteResolver i (some "") c now s).2.notes).map Note.title =
      s.notes.map Note.title := by
  refine ⟨rfl, rfl, ?_⟩
  show ((updateNoteResolver i none c now s).2.notes).map Note.title = _
  rcases hf : s.notes.find? (fun n => n.id == i) with _ | n <;>
    simp only [updateNoteResolver, prismaUpdate, truthyField, hf]
  rw [List.map_map]
  apply List.map_congr_left
  intro m _
  simp only [Function.comp]
  split <;> rfl

/-- C10: `useNotes` with an empty-string search builds the same request
variables as `useNotes` with no search (both normalize `search` to
absent), so the two issue the identical operation — hence one shared
cache key — and receive the same server result from every store. -/
theorem useNotes_empty_search_normalization :
    useNotesVariables (some "") = useNotesVariables none ∧
    ∀ st : Store, notesResolver (useNotesVariables (some "")) st =
      notesResolver (useNotesVariables none) st :=
  ⟨rfl, fun _ => rfl⟩

/-- C3 refuted: a note whose title and content do not contain the cached
search string "zzz" is nevertheless prepended to that cached search list
by the create hook's cache-update rule. -/
theorem createNote_cache_counterexample :
    useCreateNoteCacheUpdate ⟨7, "hello", "world", 1, 1⟩ [⟨some "zzz", []⟩] =
      [⟨some "zzz", [7]⟩] ∧
    containsCI "hello" "zzz" = false ∧ containsCI "world" "zzz" = false := by
  decide

/-- C3 amended: the create hook prepends the new note's ref to every
currently-cached `notes` list entry, regardless of whether the entry's
search string matches the new note's title or content. -/
theorem createNote_cache_prepends_everywhere (nn : Note) (cache : List CacheEntry) :
    (useCreateNoteCacheUpdate nn cache).length = cache.length ∧
    ∀ e ∈ cache,
      CacheEntry.mk e.search (nn.id :: e.noteIds) ∈ useCreateNoteCacheUpdate nn cache := by
  constructor
  · simp [useCreateNoteCacheUpdate]
  · intro e he
    have hmem :=
      List.mem_map_of_mem (fun e : CacheEntry => { e with noteIds := nn.id :: e.noteIds }) he
    simpa [useCreateNoteCacheUpdate] using hmem

/-- Witness for the amended C3 at a one-entry cache. -/
theorem createNote_cache_prepends_everywhere_witness :
    CacheEntry.mk (some "zzz") [7] ∈
      useCreateNoteCacheUpdate ⟨7, "a", "b", 1, 1⟩ [⟨some "zzz", []⟩] :=
  (createNote_cache_prepends_everywhere ⟨7, "a", "b", 1, 1⟩ [⟨some "zzz", []⟩]).2
    ⟨some "zzz", []⟩ (by decide)

/-- Helper: in a list of notes with pairwise-distinct ids, searching for
the id of a member returns exactly that member. -/
lemma find?_id_of_nodup (l : List Note) (n : Note)
    (hnd : (l.map Note.id).Nodup) (hn : n ∈ l) :
    l.find? (fun m => m.id == n.id) = some n := by
  induction l with
  | nil => cases hn
  | cons a l ih =>
    have hnd2 : a.id ∉ l.map Note.id ∧ (l.map Note.id).Nodup := by
      rw [List.map_cons, List.nodup_cons] at hnd
      exact hnd
    rcases List.mem_cons.mp hn with rfl | hmem
    · simp [List.find?]
    · have hne : (a.id == n.id) = false :=
        beq_eq_false_iff_ne.mpr
          (fun h => hnd2.1 (h ▸ List.mem_map_of_mem Note.id hmem))
      simp only [List.find?, hne]
      exact ih hnd2.2 hmem

/-- C7: immediately after `createNote(title, content)` succeeds with note
N, `note(N.id)` returns N itself, whose title and content equal the
arguments and whose `createdAt` equals its `updatedAt`. -/
theorem createNote_then_note (s : Store) (t c : String) (now : Nat)
    (hwf : ∀ n ∈ s.notes, n.id < s.nextId) :
    noteResolver (createNoteResolver t c now s).1.id (createNoteResolver t c now s).2 =
      some (createNoteResolver t c now s).1 ∧
    (createNoteResolver t c now s).1.title = t ∧
    (createNoteResolver t c now s).1.content = c ∧
    (createNoteResolver t c now s).1.createdAt = (createNoteResolver t c now s).1.updatedAt := by
  refine ⟨?_, rfl, rfl, rfl⟩
  simp only [noteResolver, prismaFindUnique, createNoteResolver, prismaCreate]
  rw [List.find?_append]
  have h1 : s.notes.find? (fun n => n.id == s.nextId) = none := by
    rw [List.find?_eq_none]
    intro x hx
    simpa using Nat.ne_of_lt (hwf x hx)
  rw [h1]
  simp [List.find?]

/-- Witness for C7: creating a note in the demonstration store makes it
immediately readable with equal timestamps. -/
theorem createNote_then_note_witness :
    noteResolver (createNoteResolver "T" "C" 12 demoStore).1.id
        (createNoteResolver "T" "C" 12 demoStore).2 =
      some (createNoteResolver "T" "C" 12 demoStore).1 ∧
    (createNoteResolver "T" "C" 12 demoStore).1.createdAt =
      (createNoteResolver "T" "C" 12 demoStore).1.updatedAt :=
  ⟨(createNote_then_note demoStore "T" "C" 12 (by decide)).1,
   (createNote_then_note demoStore "T" "C" 12 (by decide)).2.2.2⟩

/-- C8: `note(i)` returns a stored note with matching id when one exists,
an explicit absent result when none does, and always yields one of these
two successful outcomes — it never fails with an error for a missing
id. -/
theorem note_query_contract (s : Store) (i : Nat) :
    (∀ n, noteResolver i s = some n → n ∈ s.notes ∧ n.id = i) ∧
    ((∃ n ∈ s.notes, n.id = i) → ∃ n, noteResolver i s = some n ∧ n.id = i) ∧
    ((∀ n ∈ s.notes, n.id ≠ i) → noteResolver i s = none) ∧
    (noteResolver i s = none ∨ ∃ n, noteResolver i s = some n) := by
  refine ⟨?_, ?_, ?_, ?_⟩
  · intro n h
    have h2 : s.notes.find? (fun m => m.id == i) = some n := h
    exact ⟨List.mem_of_find?_eq_some h2, by simpa using List.find?_some h2⟩
  · rintro ⟨n, hn, hi⟩
    rcases hfind : s.notes.find? (fun m => m.id == i) with _ | m
    · rw [List.find?_eq_none] at hfind
      exact absurd (by simpa using hi) (hfind n hn)
    · exact ⟨m, hfind, by simpa using List.find?_some hfind⟩
  · intro h
    simp only [noteResolver, prismaFindUnique]
    rw [List.find?_eq_none]
    intro x hx
    simpa using h x hx
  · rcases hfind : noteResolver i s with _ | m
    · exact Or.inl rfl
    · exact Or.inr ⟨m, rfl⟩

/-- Witness for C8: the stored demonstration note with id 0 is returned
with a matching id. -/
theorem note_query_contract_witness :
    (⟨0, "Alpha", "graphql notes", 5, 5⟩ : Note) ∈ demoStore.notes ∧
    (⟨0, "Alpha", "graphql notes", 5, 5⟩ : Note).id = 0 :=
  (note_query_contract demoStore 0).1 ⟨0, "Alpha", "graphql notes", 5, 5⟩ (by decide)

/-- C5: after `deleteNote(N.id)` succeeds for a stored note N, the
mutation returns `true`, `note(N.id)` is absent, N.id appears in no
`notes` query result, and every other stored note remains stored. -/
theorem deleteNote_contract (s : Store) (n : Note) (hn : n ∈ s.notes) :
    (deleteNoteResolver n.id s).1 = .ok true ∧
    noteResolver n.id (deleteNoteResolver n.id s).2 = none ∧
    (∀ q, ∀ m ∈ notesResolver q (deleteNoteResolver n.id s).2, m.id ≠ n.id) ∧
    (∀ m ∈ s.notes, m.id ≠ n.id → m ∈ (deleteNoteResolver n.id s).2.notes) := by
  have hany : s.notes.any (fun m => m.id == n.id) = true :=
    List.any_eq_true.mpr ⟨n, hn, by simp⟩
  have hdel : deleteNoteResolver n.id s =
      (.ok true, { s with notes := s.notes.filter (fun m => !(m.id == n.id)) }) := by
    simp [deleteNoteResolver, prismaDelete, hany]
  refine ⟨by rw [hdel], ?_, ?_, ?_⟩
  · rw [hdel]
    simp only [noteResolver, prismaFindUnique]
    rw [List.find?_eq_none]
    intro x hx
    simpa using (List.mem_filter.mp hx).2
  · intro q m hm
    have hmem := mem_of_notesResolver hm
    rw [hdel] at hmem
    simpa using (List.mem_filter.mp hmem).2
  · intro m hm hne
    rw [hdel]
    exact List.mem_filter.mpr ⟨hm, by simpa using hne⟩

/-- Witness for C5: deleting the stored demonstration note with id 1
returns `true` and makes `note(1)` absent. -/
theorem deleteNote_contract_witness :
    (deleteNoteResolver 1 demoStore).1 = .ok true ∧
    noteResolver 1 (deleteNoteResolver 1 demoStore).2 = none :=
  ⟨(deleteNote_contract demoStore ⟨1, "Beta", "other", 9, 9⟩ (by decide)).1,
   (deleteNote_contract demoStore ⟨1, "Beta", "other", 9, 9⟩ (by decide)).2.1⟩

/-- C6: `updateNote` and `deleteNote` on an id with no stored note fail
with the not-found error and leave every stored record unchanged;
deleting a stored id twice fails the second time. -/
theorem missing_id_mutations (s : Store) (i : Nat) (t c : Option String) (now : Nat) :
    ((∀ n ∈ s.notes, n.id ≠ i) →
      updateNoteResolver i t c now s = (.error "NotFoundError", s) ∧
      deleteNoteResolver i s = (.error "NotFoundError", s)) ∧
    ((∃ n ∈ s.notes, n.id = i) →
      (deleteNoteResolver i (deleteNoteResolver i s).2).1 = .error "NotFoundError") := by
  constructor
  · intro h
    have hfind : s.notes.find? (fun n => n.id == i) = none := by
      rw [List.find?_eq_none]
      intro x hx
      simpa using h x hx
    have hany : s.notes.any (fun n => n.id == i) = false := by
      rw [List.any_eq_false]
      intro x hx
      simpa using h x hx
    constructor
    · simp [updateNoteResolver, prismaUpdate, hfind]
    · simp [deleteNoteResolver, prismaDelete, hany]
  · rintro ⟨n, hn, hi⟩
    have hany : s.notes.any (fun m => m.id == i) = true :=
      List.any_eq_true.mpr ⟨n, hn, by simpa using hi⟩
    have hdel : (deleteNoteResolver i s).2 =
        { s with notes := s.notes.filter (fun m => !(m.id == i)) } := by
      simp [deleteNoteResolver, prismaDelete, hany]
    rw [hdel]
    have hany2 :
        (s.notes.filter (fun m => !(m.id == i))).any (fun m => m.id == i) = false := by
      rw [List.any_eq_false]
      intro x hx
      simpa using (List.mem_filter.mp hx).2
    simp [deleteNoteResolver, prismaDelete, hany2]

/-- Witness for C6: mutations on the unused id 99 in the demonstration
store fail with the not-found error and leave the store intact, and a
second delete of id 1 fails. -/
theorem missing_id_mutations_witness :
    (updateNoteResolver 99 (some "X") none 10 demoStore = (.error "NotFoundError", demoStore) ∧
      deleteNoteResolver 99 demoStore = (.error "NotFoundError", demoStore)) ∧
    (deleteNoteResolver 1 (deleteNoteResolver 1 demoStore).2).1 = .error "NotFoundError" :=
  ⟨(missing_id_mutations demoStore 99 (some "X") none 10).1 (by decide),
   (missing_id_mutations demoStore 1 (some "X") none 10).2
     ⟨⟨1, "Beta", "other", 9, 9⟩, by decide, rfl⟩⟩

/-- C4: updating a stored note's title to a non-empty string T — in a
store with distinct ids, at a time strictly later than the note's last
update — succeeds, and the subsequent `note(N.id)` has title T while
content, `createdAt` and id are unchanged and `updatedAt` is strictly
greater than before. -/
theorem updateNote_title_frame (s : Store) (n : Note) (T : String) (now : Nat)
    (hnd : (s.notes.map Note.id).Nodup) (hn : n ∈ s.notes) (hT : T ≠ "")
    (hnow : n.updatedAt < now) :
    (updateNoteResolver n.id (some T) none now s).1 =
      .ok { n with title := T, updatedAt := now } ∧
    noteResolver n.id (updateNoteResolver n.id (some T) none now s).2 =
      some { n with title := T, updatedAt := now } ∧
    ({ n with title := T, updatedAt := now } : Note).title = T ∧
    ({ n with title := T, updatedAt := now } : Note).content = n.content ∧
    ({ n with title := T, updatedAt := now } : Note).createdAt = n.createdAt ∧
    ({ n with title := T, updatedAt := now } : Note).id = n.id ∧
    n.updatedAt < ({ n with title := T, updatedAt := now } : Note).updatedAt := by
  have hT2 : (T == "") = false := beq_eq_false_iff_ne.mpr hT
  have hfind := find?_id_of_nodup s.notes n hnd hn
  have hres : updateNoteResolver n.id (some T) none now s =
      (.ok (applyUpdate ⟨some T, none⟩ now n),
       { s with notes := s.notes.map (fun m => if m.id == n.id then applyUpdate ⟨some T, none⟩ now m else m) }) := by
    simp [updateNoteResolver, prismaUpdate, truthyField, hT2, hfind]
  refine ⟨by rw [hres]; rfl, ?_, rfl, rfl, rfl, rfl, hnow⟩
  rw [hres]
  simp only [noteResolver, prismaFindUnique]
  rw [List.find?_map]
  have hpf : ((fun m : Note => m.id == n.id) ∘
      (fun m => if m.id == n.id then applyUpdate ⟨some T, none⟩ now m else m)) =
      (fun m : Note => m.id == n.id) := by
    funext m
    simp only [Function.comp]
    by_cases hm : (m.id == n.id) = true <;> simp [hm, applyUpdate]
  rw [hpf, hfind]
  simp [applyUpdate]

/-- Witness for C4: retitling the demonstration note with id 0 at time 10
yields the expected read-back record. -/
theorem updateNote_title_frame_witness :
    noteResolver 0 (updateNoteResolver 0 (some "New") none 10 demoStore).2 =
      some ⟨0, "New", "graphql notes", 5, 10⟩ :=
  (updateNote_title_frame demoStore ⟨0, "Alpha", "graphql notes", 5, 5⟩ "New" 10
    (by decide) (by decide) (by decide) (by decide)).2.1

/-- Helper: the per-record update function never changes ids, so the id
list of a store is untouched by an update. -/
lemma map_id_update (l : List Note) (i : Nat) (d : UpdateData) (now : Nat) :
    (l.map (fun m => if m.id == i then applyUpdate d now m else m)).map Note.id =
      l.map Note.id := by
  rw [List.map_map]
  apply List.map_congr_left
  intro m _
  simp only [Function.comp]
  split <;> rfl

/-- Helper: every reachable store is well-formed — distinct ids below the
fresh-id counter and `createdAt ≤ updatedAt` on every record. -/
lemma Reach.storeWF {s : Store} (h : Reach s) : StoreWF s := by
  induction h with
  | init =>
    exact ⟨by simp, by simp⟩
  | create s t c now hr hnow ih =>
    obtain ⟨hnd, hb⟩ := ih
    simp only [createNoteResolver, prismaCreate, StoreWF]
    constructor
    · rw [List.map_append, List.nodup_append]
      refine ⟨hnd, List.nodup_singleton _, ?_⟩
      intro x hx hx2
      rcases List.mem_map.mp hx with ⟨m, hm, rfl⟩
      have h1 := (hb m hm).1
      have h2 : m.id = s.nextId := by simpa using hx2
      omega
    · intro n hn
      rcases List.mem_append.mp hn with hmem | hnew
      · exact ⟨Nat.lt_succ_of_lt (hb n hmem).1, (hb n hmem).2⟩
      · have hn2 : n = { id := s.nextId, title := t, content := c, createdAt := now, updatedAt := now } := by
          simpa using hnew
        rw [hn2]
        exact ⟨Nat.lt_succ_self _, Nat.le_refl _⟩
  | update s i t c now hr hnow ih =>
    obtain ⟨hnd, hb⟩ := ih
    rcases hf : s.notes.find? (fun m => m.id == i) with _ | m0
    · have heq : (updateNoteResolver i t c now s).2 = s := by
        simp [updateNoteResolver, prismaUpdate, hf]
      rw [heq]
      exact ⟨hnd, hb⟩
    · have heq : (updateNoteResolver i t c now s).2 =
          { s with notes := s.notes.map (fun m => if m.id == i then applyUpdate ⟨truthyField t, truthyField c⟩ now m else m) } := by
        simp [updateNoteResolver, prismaUpdate, hf]
      rw [heq]
      refine ⟨?_, ?_⟩
      · show ((s.notes.map _).map Note.id).Nodup
        rw [map_id_update]
        exact hnd
      · intro n hn
        rcases List.mem_map.mp hn with ⟨m, hm, rfl⟩
        by_cases hmi : (m.id == i) = true
        · rw [if_pos hmi]
          exact ⟨(hb m hm).1, Nat.le_trans (hb m hm).2 (hnow m hm)⟩
        · rw [if_neg hmi]
          exact hb m hm
  | delete s i hr ih =>
    obtain ⟨hnd, hb⟩ := ih
    by_cases hany : s.notes.any (fun m => m.id == i) = true
    · have heq : (deleteNoteResolver i s).2 =
          { s with notes := s.notes.filter (fun m => !(m.id == i)) } := by
        simp [deleteNoteResolver, prismaDelete, hany]
      rw [heq]
      refine ⟨?_, ?_⟩
      · exact List.Nodup.sublist (List.Sublist.map Note.id (List.filter_sublist _)) hnd
      · intro n hn
        exact hb n (List.mem_filter.mp hn).1
    · have heq : (deleteNoteResolver i s).2 = s := by
        simp [deleteNoteResolver, prismaDelete, hany]
      rw [heq]
      exact ⟨hnd, hb⟩

/-- C9: in every state reachable from the empty store by any sequence of
create, update and delete, every stored note satisfies
`createdAt ≤ updatedAt`, and the stored ids are pairwise distinct — each
id identifies at most one note. -/
theorem reachable_invariants (s : Store) (h : Reach s) :
    (∀ n ∈ s.notes, n.createdAt ≤ n.updatedAt) ∧ (s.notes.map Note.id).Nodup := by
  obtain ⟨hnd, hb⟩ := Reach.storeWF h
  exact ⟨fun n hn => (hb n hn).2, hnd⟩

/-- Witness for C9 at the store reached by one create from the empty
store. -/
theorem reachable_invariants_witness :
    (((createNoteResolver "A" "B" 3 { notes := [], nextId := 0 }).2.notes).map Note.id).Nodup :=
  (reachable_invariants _ (Reach.create { notes := [], nextId := 0 } "A" "B" 3 Reach.init
    (fun n hn => absurd hn (List.not_mem_nil n)))).2
